import Mathlib

/-!
Shallow embedding of the PIR-Botnet/p2p repository (Python sources
`message.py`, `peer.py`, `src/peer.py`, `functions.py`) and proofs about
its envelope codec, membership table, dispatch engine and stabilizers.

Python strings are modelled as Lean `String`, Python `int` as `Int`,
Python `dict` (insertion ordered) as an association list updated in place,
`datetime` instants as integer second counts, and `uuid.uuid4()` as an
explicit `fresh` parameter threaded to the functions that call it.
Operations that can raise are modelled with `Option` / `Except` /
an explicit `raised` result.
-/

namespace P2P

/-! ### Python string primitives

`str.count`, `str.split`, `str.strip` (the strip done by `int(...)`),
`str.upper` and `int(str)` are modelled at the character-list level.
-/

/-- Python `s.split(sep)` for a one-character separator, on char lists:
splitting never drops empty fields and `split` of `""` is `[""]`. -/
def splitCh (sep : Char) : List Char → List (List Char)
  | [] => [[]]
  | c :: cs =>
    match splitCh sep cs with
    | [] => [[c]]
    | h :: t => if c = sep then [] :: h :: t else (c :: h) :: t

/-- Python `s.split(sep)` on strings (single-character separator). -/
def pySplit (sep : Char) (s : String) : List String :=
  (splitCh sep s.data).map String.mk

/-- Python `s.count(sep)` for a one-character pattern. -/
def pyCount (sep : Char) (s : String) : Nat :=
  s.data.count sep

/-- Python `s.upper()`: character-wise upper-casing (ASCII letters; the
orders used by the program are ASCII). -/
def pyUpper (s : String) : String :=
  String.mk (s.data.map Char.toUpper)

/-- Python `s.strip()` as performed by `int(str)`: drop leading and
trailing whitespace. -/
def pyStrip (l : List Char) : List Char :=
  ((l.dropWhile Char.isWhitespace).reverse.dropWhile Char.isWhitespace).reverse

/-- Decimal value of a digit character. -/
def dval (c : Char) : Nat := c.toNat - 48

/-- Value of a non-empty all-digit character list; `none` otherwise.
This is the digit-run acceptance of Python `int(str)`. -/
def digitsVal (l : List Char) : Option Nat :=
  if l ≠ [] ∧ l.all Char.isDigit then
    some (l.foldl (fun a c => a * 10 + dval c) 0)
  else none

/-- Python `int(s)` on a string: strip whitespace, optional sign, then a
non-empty digit run; any other shape raises `ValueError`, modelled as
`none`. (Python additionally accepts underscores between digits and
non-ASCII decimal digits; no code path in this program depends on those.) -/
def pyIntL (l : List Char) : Option Int :=
  match pyStrip l with
  | [] => none
  | c :: cs =>
    if c = '-' then
      match digitsVal cs with
      | none => none
      | some v => some (-(v : Int))
    else if c = '+' then
      match digitsVal cs with
      | none => none
      | some v => some ((v : Int))
    else
      match digitsVal (c :: cs) with
      | none => none
      | some v => some ((v : Int))

/-- Python `int(s)` on a `String`. -/
def pyInt (s : String) : Option Int := pyIntL s.data

/-- Decimal digit character for `n < 10`. -/
def digitChar (n : Nat) : Char := Char.ofNat (48 + n)

/-- Decimal digits of `n`, least significant first; structural fuel so
the kernel can evaluate it (`fuel > n` always suffices). -/
def natDigitsRevAux : Nat → Nat → List Char
  | 0, _ => []
  | fuel + 1, n =>
    if n < 10 then [digitChar n]
    else digitChar (n % 10) :: natDigitsRevAux fuel (n / 10)

/-- Decimal digits of `n`, least significant first. -/
def natDigitsRev (n : Nat) : List Char := natDigitsRevAux (n + 1) n

/-- Python `str(n)` for a natural number. -/
def natStr (n : Nat) : String := String.mk (natDigitsRev n).reverse

/-- Python `str(n)` for an `int`: decimal digits with a leading `-` for
negative values (used by `'{ttl}'.format(...)` and `str(port)`). -/
def intStr (n : Int) : String :=
  if n < 0 then String.mk ('-' :: (natDigitsRev (-n).toNat).reverse) else natStr n.toNat

/-! ### Envelope codec (`message.py`) -/

/-- The message envelope: fields of `Message.__init__` in `message.py`.
`data = none` models Python `data is None`. -/
structure Message where
  id : String
  ttl : Int
  order : String
  data : Option (List String)
  deriving Repr, DecidableEq

/-- `Message.__init__(ttl, order, data, msg_id)`: the stored id is
`msg_id or str(uuid.uuid4())` — a falsy `msg_id` (`None`, `''`, `0`) is
replaced by a fresh uuid4 string, modelled by the explicit `fresh`
argument; the order is upper-cased. -/
def mkMessage (fresh : String) (ttl : Int) (order : String)
    (data : Option (List String)) (msgId : Option String) : Message :=
  { id := match msgId with
          | none => fresh
          | some u => if u = "" then fresh else u
    ttl := ttl
    order := pyUpper order
    data := data }

/-- The comma-join performed by the loop in `Message.__str__`
(`message += ','` between items, `message += str(d)` for each item). -/
def joinComma : List String → String
  | [] => ""
  | [d] => d
  | d :: ds => d ++ "," ++ joinComma ds

/-- `Message.__str__`: `'{id};{ttl};{order};'` followed by the
comma-joined data. When `data` is `None` the loop head
`enumerate(self.data)` raises `TypeError`, modelled as `none`. -/
def encodeMessage (m : Message) : Option String :=
  match m.data with
  | none => none
  | some ds => some (m.id ++ ";" ++ intStr m.ttl ++ ";" ++ m.order ++ ";" ++ joinComma ds)

/-- `Message.from_string`: splits on `;` by separator count; a count
other than 2 or 3 yields `uid = 0, ttl = 0, order = ''` (and the falsy
`uid` makes the constructor draw a fresh uuid). `int(ttl)` raising
`ValueError` is modelled as `Except.error`. -/
def fromString (fresh : String) (s : String) : Except Unit Message :=
  let count := pyCount ';' s
  if count = 2 then
    match pySplit ';' s with
    | [uid, ttlS, order] =>
      match pyInt ttlS with
      | none => Except.error ()
      | some t => Except.ok (mkMessage fresh t (pyUpper order) none (some uid))
    | _ => Except.error ()
  else if count = 3 then
    match pySplit ';' s with
    | [uid, ttlS, order, dataS] =>
      match pyInt ttlS with
      | none => Except.error ()
      | some t => Except.ok (mkMessage fresh t (pyUpper order) (some (pySplit ',' dataS)) (some uid))
    | _ => Except.error ()
  else
    Except.ok (mkMessage fresh 0 "" none none)

/-- `Message.is_valid`: the order is non-empty. -/
def Message.isValid (m : Message) : Bool := m.order ≠ ""

/-- `Message.is_expired`: the ttl is `<= 0`. -/
def Message.isExpired (m : Message) : Bool := m.ttl ≤ 0

/-! ### Membership table and node state (`src/peer.py`, canonical variant)

Python `dict` keeps insertion order and updates in place; it is modelled
as an association list. `datetime.now()` instants are integer second
counts passed in as `now`.
-/

/-- Key membership in an insertion-ordered dict. -/
def dictMem {α : Type} (k : String) (d : List (String × α)) : Bool :=
  d.any (fun kv => kv.1 = k)

/-- `d[k] = v` on an insertion-ordered dict: overwrite in place if the
key is present, append otherwise. -/
def dictInsert {α : Type} (k : String) (v : α) (d : List (String × α)) : List (String × α) :=
  if dictMem k d then d.map (fun kv => if kv.1 = k then (k, v) else kv)
  else d ++ [(k, v)]

/-- `del d[k]` (callers check presence; `KeyError` is handled at the
call sites that can see an absent key). -/
def dictErase {α : Type} (k : String) (d : List (String × α)) : List (String × α) :=
  d.filter (fun kv => kv.1 ≠ k)

/-- `self.max_peers` after `__init__`: an `int >= 0`, or `math.inf` when
the constructor argument was negative. -/
inductive MaxPeers where
  | fin (n : Nat)
  | inf
  deriving Repr, DecidableEq

/-- `self.max_peers = int(max_peers); if self.max_peers < 0: self.max_peers = math.inf`. -/
def mkMaxPeers (m : Int) : MaxPeers :=
  if m < 0 then MaxPeers.inf else MaxPeers.fin m.toNat

/-- A membership-table entry as stored by `src/peer.py`'s `add_peer`:
`{'alive': ..., 'time_added': ..., 'host': ..., 'port': ...}`. -/
structure PeerInfo where
  alive : Bool
  time_added : Int
  host : String
  port : Int
  deriving Repr, DecidableEq

/-- The mutable state of a `PeerNode` (canonical `src/peer.py` variant):
identity, capacity, membership table, recently-seen cache, freshness
window (`recent_timeout`, set to 300 by the constructor). -/
structure NodeState where
  serverHost : String
  serverPort : Int
  maxPeers : MaxPeers
  peers : List (String × PeerInfo)
  recentlyReceived : List (String × Int)
  recentTimeout : Int
  deriving Repr, DecidableEq

/-- `'{0}:{1}'.format(host, port)` / `host + ':' + str(port)`. -/
def peerId (host : String) (port : Int) : String :=
  host ++ ":" ++ intStr port

/-- `PeerNode.max_peers_reached` (canonical `src/peer.py`):
`len(self.peers) >= self.max_peers`; comparison with `math.inf` is
always false. -/
def maxPeersReached (s : NodeState) : Bool :=
  match s.maxPeers with
  | MaxPeers.inf => false
  | MaxPeers.fin n => s.peers.length ≥ n

/-- `PeerNode.max_peers_reached` of the top-level `peer.py` variant:
`len(self.peers) < self.max_peers`; comparison with `math.inf` is
always true. -/
def maxPeersReachedV1 (s : NodeState) : Bool :=
  match s.maxPeers with
  | MaxPeers.inf => true
  | MaxPeers.fin n => s.peers.length < n

/-- `PeerNode.add_peer` (canonical `src/peer.py`): return if the
`(host, port)` pair is the node's own identity; insert an entry with
`alive=True, time_added=now` unless `max_peers_reached`. -/
def addPeer (now : Int) (host : String) (port : Int) (s : NodeState) : NodeState :=
  if host = s.serverHost ∧ port = s.serverPort then s
  else if maxPeersReached s then s
  else { s with peers := dictInsert (peerId host port) ⟨true, now, host, port⟩ s.peers }

/-- `PeerNode.add_peer` of the top-level `peer.py` variant: no
self-identity check, admission guarded by `not self.max_peers_reached()`
with that file's `max_peers_reached`. (That variant stores only
`{'alive': True}`; the shared entry type is used here so the two
admission behaviours can be compared.) -/
def addPeerV1 (now : Int) (host : String) (port : Int) (s : NodeState) : NodeState :=
  if maxPeersReachedV1 s then s
  else { s with peers := dictInsert (peerId host port) ⟨true, now, host, port⟩ s.peers }

/-- `PeerNode.remove_peer`: `del self.peers[peer_id]`; an absent key
raises `KeyError`, modelled as `none`. -/
def removePeer (host : String) (port : Int) (s : NodeState) : Option NodeState :=
  if dictMem (peerId host port) s.peers then
    some { s with peers := dictErase (peerId host port) s.peers }
  else none

/-- Insert one entry into a list already sorted by `time_added`
(helper for `sortByTime`). -/
def insertByTime (p : PeerInfo) : List PeerInfo → List PeerInfo
  | [] => [p]
  | q :: qs => if p.time_added ≤ q.time_added then p :: q :: qs else q :: insertByTime p qs

/-- Stable sort by `time_added`, ascending — the behaviour of
`sorted(self.peers.values(), key=itemgetter('time_added'))` in
`PeerNode.get_sorted_peers`. -/
def sortByTime : List PeerInfo → List PeerInfo
  | [] => []
  | p :: ps => insertByTime p (sortByTime ps)

/-- `PeerNode.get_sorted_peers`: the table's values sorted by `time_added`. -/
def getSortedPeers (s : NodeState) : List PeerInfo :=
  sortByTime (s.peers.map (fun kv => kv.2))

/-! ### Protocol handlers (`src/peer.py`) -/

/-- Result of running a handler: the new state and the direct
`send_message` calls it performed; `raised` marks a Python exception
escaping the handler (caught at the dispatch boundary). -/
inductive HResult where
  | ok (s : NodeState) (sends : List (Message × String × Int))
  | raised (s : NodeState) (sends : List (Message × String × Int))
  deriving Repr, DecidableEq

/-- State carried by a handler result. -/
def HResult.state : HResult → NodeState
  | HResult.ok s _ => s
  | HResult.raised s _ => s

/-- A handler: receives the clock and a fresh uuid4 string (for the
`Message(...)` it may create) besides the message and the node state. -/
def HandlerFn : Type := Int → String → Message → NodeState → HResult

/-- `PeerNode.ping_handler`: reply directly to `(data[0], data[1])` with
an `ALIVE` message carrying the node's own identity. Missing data or an
unparseable destination port (`int(port)` inside `send_message`) raises. -/
def pingHandler : HandlerFn := fun _ fresh msg s =>
  match msg.data with
  | none => HResult.raised s []
  | some ds =>
    match ds with
    | d0 :: d1 :: _ =>
      match pyInt d1 with
      | none => HResult.raised s []
      | some p =>
        HResult.ok s [(mkMessage fresh 1 "ALIVE" (some [s.serverHost, intStr s.serverPort]) none, d0, p)]
    | _ => HResult.raised s []

/-- Set the `alive` flag of the entry under `k` (in place). -/
def dictSetAlive (k : String) (d : List (String × PeerInfo)) : List (String × PeerInfo) :=
  d.map (fun kv => if kv.1 = k then (kv.1, { kv.2 with alive := true }) else kv)

/-- `PeerNode.alive_handler`: `self.peers[host + ':' + port]['alive'] = True`;
an unknown peer id raises `KeyError`. -/
def aliveHandler : HandlerFn := fun _ _ msg s =>
  match msg.data with
  | none => HResult.raised s []
  | some ds =>
    match ds with
    | d0 :: d1 :: _ =>
      let pid := d0 ++ ":" ++ d1
      if dictMem pid s.peers then
        HResult.ok { s with peers := dictSetAlive pid s.peers } []
      else HResult.raised s []
    | _ => HResult.raised s []

/-- `PeerNode.hello_handler`: if the table is full, evict the oldest
entry (`get_sorted_peers()[0]`, an `IndexError` on an empty table); then
`add_peer(data[0], int(data[1]))`; then send a `PEERS` message holding
`list(self.peers.keys())` directly to the sender. -/
def helloHandler : HandlerFn := fun now fresh msg s =>
  match msg.data with
  | none => HResult.raised s []
  | some ds =>
    match ds with
    | d0 :: d1 :: _ =>
      match pyInt d1 with
      | none => HResult.raised s []
      | some newPort =>
        let step1 : Option NodeState :=
          if maxPeersReached s then
            match getSortedPeers s with
            | [] => none
            | first :: _ => removePeer first.host first.port s
          else some s
        match step1 with
        | none => HResult.raised s []
        | some s1 =>
          let s2 := addPeer now d0 newPort s1
          HResult.ok s2 [(mkMessage fresh 1 "PEERS" (some (s2.peers.map (fun kv => kv.1))) none, d0, newPort)]
    | _ => HResult.raised s []

/-- The loop of `PeerNode.peers_handler`: for each `host:port` string,
`add_peer(host, port)`; a malformed id (unpacking `split(':')`) or an
unparseable port (`int(port)` inside `add_peer`) raises, keeping the
peers added so far. -/
def peersLoop (now : Int) : List String → NodeState → HResult
  | [], s => HResult.ok s []
  | pid :: rest, s =>
    match splitCh ':' pid.data with
    | [h, p] =>
      match pyInt (String.mk p) with
      | none => HResult.raised s []
      | some pn => peersLoop now rest (addPeer now (String.mk h) pn s)
    | _ => HResult.raised s []

/-- `PeerNode.peers_handler`. -/
def peersHandler : HandlerFn := fun now _ msg s =>
  match msg.data with
  | none => HResult.raised s []
  | some ds => peersLoop now ds s

/-- The handler table registered by `PeerNode.mainloop`:
`PING`, `ALIVE`, `HELLO`, `PEERS`. -/
def nodeHandlers (order : String) : Option HandlerFn :=
  if order = "PING" then some pingHandler
  else if order = "ALIVE" then some aliveHandler
  else if order = "HELLO" then some helloHandler
  else if order = "PEERS" then some peersHandler
  else none

/-! ### Dispatch engine (`PeerNode.__handle_peer`, canonical variant) -/

/-- The `(host, port)` a single iteration of `broadcast_message` sends
to, from the table key: `peer_id.split(':')`, `peer_id[0]` and
`int(peer_id[1])`; `none` marks the `IndexError` (fewer than two
segments) or the `ValueError` of `int(...)`. -/
def keyTarget (k : String) : Option (String × Int) :=
  match splitCh ':' k.data with
  | a :: b :: _ => (pyInt (String.mk b)).map (fun p => (String.mk a, p))
  | _ => none

/-- The loop of `broadcast_message` over the table keys in order: each
well-formed key gets a send; the first key whose target raises aborts
the loop — the sends already made stand, the remaining entries never
receive the message, and the flag records that the exception escaped
(to be caught at the dispatch boundary). -/
def broadcastSends : List String → List (String × Int) × Bool
  | [] => ([], false)
  | k :: rest =>
    match keyTarget k with
    | none => ([], true)
    | some t => (t :: (broadcastSends rest).1, (broadcastSends rest).2)

/-- Externally visible effects of one dispatch: handler invocations,
direct `send_message` calls, and re-floods (`broadcast_message`) with
the targets actually sent to plus the aborted-by-exception flag. -/
structure Trace where
  handlerRuns : List Message
  sends : List (Message × String × Int)
  broadcasts : List (Message × (List (String × Int) × Bool))
  deriving Repr, DecidableEq

/-- The empty trace. -/
def emptyTrace : Trace := ⟨[], [], []⟩

/-- The tail of `__handle_peer` after the handler call: a raising
handler ends the dispatch (exception caught, nothing more happens); a
normal return is followed by `message.ttl -= 1` and, if the remaining
ttl is positive, `broadcast_message` over the current table keys. -/
def dispatchResult (msg : Message) (hr : HResult) : NodeState × Trace :=
  match hr with
  | HResult.raised s2 sends => (s2, ⟨[msg], sends, []⟩)
  | HResult.ok s2 sends =>
    let msg2 := { msg with ttl := msg.ttl - 1 }
    if msg2.ttl > 0 then
      (s2, ⟨[msg], sends, [(msg2, broadcastSends (s2.peers.map (fun kv => kv.1)))]⟩)
    else (s2, ⟨[msg], sends, []⟩)

/-- `PeerNode.__handle_peer` (canonical `src/peer.py`): decode; discard
if the id is in the recently-seen cache, else record it; discard if
invalid (`MessageNotValidException`, caught); look up the handler; run
it; decrement the ttl and re-flood to all current peers if the remaining
ttl is positive. `fresh` is the uuid4 drawn by `from_string`, `fresh2`
the one for a message created inside the handler. -/
def handlePeer (handlers : String → Option HandlerFn) (now : Int) (fresh fresh2 : String)
    (raw : String) (s : NodeState) : NodeState × Trace :=
  match fromString fresh raw with
  | Except.error _ => (s, emptyTrace)
  | Except.ok msg =>
    if dictMem msg.id s.recentlyReceived then (s, emptyTrace)
    else
      let s1 := { s with recentlyReceived := dictInsert msg.id now s.recentlyReceived }
      if ¬ msg.isValid then (s1, emptyTrace)
      else
        match handlers msg.order with
        | none => (s1, emptyTrace)
        | some h => dispatchResult msg (h now fresh2 msg s1)

/-! ### Stabilizers (`src/peer.py`) -/

/-- The seconds component of a Python `timedelta` of `delta` total
seconds: `timedelta` normalizes to `0 <= seconds < 86400` with
floor-division days, i.e. `delta mod 86400`. -/
def tdSeconds (delta : Int) : Int := delta.emod 86400

/-- `PeerNode.__is_recent`: `(datetime.now() - received_time).seconds <= self.recent_timeout`. -/
def isRecent (s : NodeState) (now t : Int) : Bool :=
  tdSeconds (now - t) ≤ s.recentTimeout

/-- `PeerNode.clear_old_messages`: delete every cache entry that is not
recent (dict order preserved). -/
def clearOldMessages (now : Int) (s : NodeState) : NodeState :=
  { s with recentlyReceived := s.recentlyReceived.filter (fun kv => isRecent s now kv.2) }

/-! ### Iterated operations used by the claims -/

/-- A sequence of `add_peer(host, port)` calls, each at its own instant. -/
def runAdds (calls : List (Int × String × Int)) (s : NodeState) : NodeState :=
  calls.foldl (fun s c => addPeer c.1 c.2.1 c.2.2 s) s

/-- Whether the table holds an entry for the node's own identity. -/
def hasSelfEntry (s : NodeState) : Bool :=
  s.peers.any (fun kv => kv.2.host = s.serverHost ∧ kv.2.port = s.serverPort)

/-- Deliver the same raw datagram repeatedly; each delivery has its own
clock value and fresh uuid4 strings. Returns the final state and the
trace of every delivery. -/
def runDeliveries (handlers : String → Option HandlerFn) (raw : String) :
    List (Int × String × String) → NodeState → NodeState × List Trace
  | [], s => (s, [])
  | p :: rest, s =>
    ((runDeliveries handlers raw rest (handlePeer handlers p.1 p.2.1 p.2.2 raw s).1).1,
      (handlePeer handlers p.1 p.2.1 p.2.2 raw s).2 ::
        (runDeliveries handlers raw rest (handlePeer handlers p.1 p.2.1 p.2.2 raw s).1).2)

/-! ### Lemmas: decimal rendering and parsing -/

/-- Characters that can appear in a decimal digit run: a digit that is
not whitespace, a sign, or one of the wire separators. -/
def goodDigit (c : Char) : Prop :=
  c.isDigit = true ∧ c.isWhitespace = false ∧ c ≠ '-' ∧ c ≠ '+' ∧ c ≠ ';' ∧ c ≠ ','

theorem digitChar_spec (n : Nat) (h : n < 10) :
    goodDigit (digitChar n) ∧ dval (digitChar n) = n := by
  interval_cases n <;> exact ⟨⟨by decide, by decide, by decide, by decide, by decide, by decide⟩, by decide⟩

theorem natDigitsRevAux_spec (fuel : Nat) : ∀ n : Nat, n < fuel →
    natDigitsRevAux fuel n ≠ [] ∧
    (∀ c ∈ natDigitsRevAux fuel n, goodDigit c) ∧
    (natDigitsRevAux fuel n).reverse.foldl (fun a c => a * 10 + dval c) 0 = n := by
  induction fuel with
  | zero => intro n hn; omega
  | succ fuel ih =>
    intro n hn
    by_cases h : n < 10
    · refine ⟨by simp [natDigitsRevAux, h], ?_, ?_⟩
      · intro c hc
        simp only [natDigitsRevAux, if_pos h, List.mem_singleton] at hc
        exact hc ▸ (digitChar_spec n h).1
      · simp [natDigitsRevAux, h, (digitChar_spec n h).2]
    · have hdiv : n / 10 < fuel := by
        have h1 : n / 10 < n := Nat.div_lt_self (by omega) (by omega)
        omega
      obtain ⟨hne, hdig, hval⟩ := ih (n / 10) hdiv
      refine ⟨by simp [natDigitsRevAux, h], ?_, ?_⟩
      · intro c hc
        simp only [natDigitsRevAux, if_neg h, List.mem_cons] at hc
        rcases hc with hc | hc
        · exact hc ▸ (digitChar_spec (n % 10) (Nat.mod_lt n (by omega))).1
        · exact hdig c hc
      · simp only [natDigitsRevAux, if_neg h, List.reverse_cons, List.foldl_append,
          List.foldl_cons, List.foldl_nil, hval]
        rw [(digitChar_spec (n % 10) (Nat.mod_lt n (by omega))).2]
        omega

theorem data_mk (l : List Char) : (String.mk l).data = l := rfl

theorem intStr_chars (n : Int) : ∀ c ∈ (intStr n).data, goodDigit c ∨ c = '-' := by
  intro c hc
  unfold intStr natStr natDigitsRev at hc
  by_cases h : n < 0
  · simp only [if_pos h, data_mk, List.mem_cons, List.mem_reverse] at hc
    rcases hc with hc | hc
    · exact Or.inr hc
    · exact Or.inl ((natDigitsRevAux_spec _ _ (Nat.lt_succ_self _)).2.1 c hc)
  · simp only [if_neg h, data_mk, List.mem_reverse] at hc
    exact Or.inl ((natDigitsRevAux_spec _ _ (Nat.lt_succ_self _)).2.1 c hc)

theorem intStr_no_semi (n : Int) : ';' ∉ (intStr n).data := by
  intro hmem
  rcases intStr_chars n ';' hmem with h | h
  · exact h.2.2.2.2.1 rfl
  · exact absurd h (by decide)

theorem intStr_no_comma (n : Int) : ',' ∉ (intStr n).data := by
  intro hmem
  rcases intStr_chars n ',' hmem with h | h
  · exact h.2.2.2.2.2 rfl
  · exact absurd h (by decide)

theorem dropWhile_of_none {p : Char → Bool} {l : List Char}
    (h : ∀ c ∈ l, p c = false) : l.dropWhile p = l := by
  cases l with
  | nil => rfl
  | cons c cs => simp [List.dropWhile, h c (List.mem_cons_self c cs)]

theorem pyStrip_of_no_ws {l : List Char} (h : ∀ c ∈ l, c.isWhitespace = false) :
    pyStrip l = l := by
  unfold pyStrip
  rw [dropWhile_of_none h, dropWhile_of_none (fun c hc => h c (List.mem_reverse.mp hc)),
    List.reverse_reverse]

theorem digitsVal_of_digits {l : List Char} (hne : l ≠ []) (h : ∀ c ∈ l, goodDigit c) :
    digitsVal l = some (l.foldl (fun a c => a * 10 + dval c) 0) := by
  unfold digitsVal
  rw [if_pos]
  exact ⟨hne, List.all_eq_true.mpr (fun c hc => (h c hc).1)⟩

theorem pyInt_intStr (n : Int) : pyInt (intStr n) = some n := by
  have hstrip : pyStrip (intStr n).data = (intStr n).data := by
    apply pyStrip_of_no_ws
    intro c hc
    rcases intStr_chars n c hc with h | h
    · exact h.2.1
    · rw [h]; decide
  unfold pyInt pyIntL
  rw [hstrip]
  unfold intStr natStr natDigitsRev
  by_cases h : n < 0
  · obtain ⟨hne, hdig, hval⟩ :=
      natDigitsRevAux_spec ((-n).toNat + 1) (-n).toNat (Nat.lt_succ_self _)
    rw [if_pos h]
    simp only [data_mk]
    rw [digitsVal_of_digits (by simpa using hne) (fun c hc => hdig c (List.mem_reverse.mp hc))]
    simp only [hval]
    rw [Int.toNat_of_nonneg (by omega : (0:Int) ≤ -n), neg_neg]
    simp
  · obtain ⟨hne, hdig, hval⟩ :=
      natDigitsRevAux_spec (n.toNat + 1) n.toNat (Nat.lt_succ_self _)
    rw [if_neg h]
    simp only [data_mk]
    rcases hrev : (natDigitsRevAux (n.toNat + 1) n.toNat).reverse with _ | ⟨c, cs⟩
    · exact absurd (by simpa using hrev) hne
    · have hcgood : goodDigit c := hdig c (List.mem_reverse.mp (hrev ▸ List.mem_cons_self c cs))
      simp only [if_neg hcgood.2.2.1, if_neg hcgood.2.2.2.1]
      rw [digitsVal_of_digits (List.cons_ne_nil c cs)
        (fun d hd => hdig d (List.mem_reverse.mp (hrev ▸ hd)))]
      rw [show (c :: cs) = (natDigitsRevAux (n.toNat + 1) n.toNat).reverse from hrev.symm, hval]
      simp only [Option.some.injEq]
      omega

/-! ### Lemmas: splitting and joining -/

theorem splitCh_cons_eq (sep c : Char) (cs : List Char) :
    splitCh sep (c :: cs) =
      match splitCh sep cs with
      | [] => [[c]]
      | h :: t => if c = sep then [] :: h :: t else (c :: h) :: t := rfl

theorem splitCh_ne_nil (sep : Char) (l : List Char) : splitCh sep l ≠ [] := by
  cases l with
  | nil => simp [splitCh]
  | cons c cs =>
    rw [splitCh_cons_eq]
    rcases h : splitCh sep cs with _ | ⟨x, xs⟩
    · simp
    · by_cases hc : c = sep <;> simp [hc]

theorem splitCh_no_sep {sep : Char} : ∀ {l : List Char}, sep ∉ l → splitCh sep l = [l] := by
  intro l
  induction l with
  | nil => intro _; rfl
  | cons c cs ih =>
    intro h
    have hc : c ≠ sep := fun hq => h (hq ▸ List.mem_cons_self c cs)
    have hcs : sep ∉ cs := fun hq => h (List.mem_cons_of_mem c hq)
    rw [splitCh_cons_eq, ih hcs]
    simp [hc]

theorem splitCh_sep_cons (sep : Char) (b : List Char) :
    splitCh sep (sep :: b) = [] :: splitCh sep b := by
  rw [splitCh_cons_eq]
  rcases h : splitCh sep b with _ | ⟨x, xs⟩
  · exact absurd h (splitCh_ne_nil sep b)
  · simp

theorem splitCh_append_sep {sep : Char} : ∀ {a : List Char} (b : List Char), sep ∉ a →
    splitCh sep (a ++ sep :: b) = a :: splitCh sep b := by
  intro a
  induction a with
  | nil => intro b _; simpa using splitCh_sep_cons sep b
  | cons c a' ih =>
    intro b h
    have hc : c ≠ sep := fun hq => h (hq ▸ List.mem_cons_self c a')
    have ha' : sep ∉ a' := fun hq => h (List.mem_cons_of_mem c hq)
    have hr : (c :: a') ++ sep :: b = c :: (a' ++ sep :: b) := rfl
    rw [hr, splitCh_cons_eq, ih b ha']
    simp [hc]

theorem count_eq_zero_of_not_mem {sep : Char} {l : List Char} (h : sep ∉ l) :
    l.count sep = 0 :=
  List.count_eq_zero.mpr h

theorem joinComma_no_semi {ds : List String} (h : ∀ d ∈ ds, ';' ∉ d.data) :
    (joinComma ds).data.count ';' = 0 := by
  induction ds with
  | nil => rfl
  | cons d ds ih =>
    cases ds with
    | nil =>
      exact count_eq_zero_of_not_mem (h d (List.mem_cons_self d []))
    | cons d' ds' =>
      have hjoin : joinComma (d :: d' :: ds') = d ++ "," ++ joinComma (d' :: ds') := rfl
      rw [hjoin]
      simp only [String.data_append, List.count_append]
      rw [count_eq_zero_of_not_mem (h d (List.mem_cons_self d _))]
      rw [ih (fun x hx => h x (List.mem_cons_of_mem d hx))]
      rfl

theorem splitCh_joinComma : ∀ {ds : List String}, ds ≠ [] → (∀ d ∈ ds, ',' ∉ d.data) →
    splitCh ',' (joinComma ds).data = ds.map String.data := by
  intro ds
  induction ds with
  | nil => intro h _; exact absurd rfl h
  | cons d ds ih =>
    intro _ h
    cases ds with
    | nil =>
      show splitCh ',' (joinComma [d]).data = [d.data]
      exact splitCh_no_sep (h d (List.mem_cons_self d []))
    | cons d' ds' =>
      have hjoin : joinComma (d :: d' :: ds') = d ++ "," ++ joinComma (d' :: ds') := rfl
      rw [hjoin]
      have hdata : (d ++ "," ++ joinComma (d' :: ds')).data
          = d.data ++ ',' :: (joinComma (d' :: ds')).data := by
        simp [String.data_append]
      rw [hdata, splitCh_append_sep _ (h d (List.mem_cons_self d _)),
        ih (List.cons_ne_nil d' ds') (fun x hx => h x (List.mem_cons_of_mem d hx))]
      rfl

/-! ### Lemmas: the encoded wire string -/

theorem wire_data (idS ttlS ordS dataS : String) :
    (idS ++ ";" ++ ttlS ++ ";" ++ ordS ++ ";" ++ dataS).data =
      idS.data ++ ';' :: (ttlS.data ++ ';' :: (ordS.data ++ ';' :: dataS.data)) := by
  simp [String.data_append]

theorem wire_count (idS ttlS ordS dataS : String)
    (h1 : ';' ∉ idS.data) (h2 : ';' ∉ ttlS.data) (h3 : ';' ∉ ordS.data)
    (h4 : dataS.data.count ';' = 0) :
    (idS ++ ";" ++ ttlS ++ ";" ++ ordS ++ ";" ++ dataS).data.count ';' = 3 := by
  rw [wire_data]
  simp [List.count_append, List.count_cons, count_eq_zero_of_not_mem h1,
    count_eq_zero_of_not_mem h2, count_eq_zero_of_not_mem h3, h4]

theorem wire_split (idS ttlS ordS dataS : String)
    (h1 : ';' ∉ idS.data) (h2 : ';' ∉ ttlS.data) (h3 : ';' ∉ ordS.data)
    (h4 : ';' ∉ dataS.data) :
    splitCh ';' (idS ++ ";" ++ ttlS ++ ";" ++ ordS ++ ";" ++ dataS).data =
      [idS.data, ttlS.data, ordS.data, dataS.data] := by
  rw [wire_data, splitCh_append_sep _ h1, splitCh_append_sep _ h2, splitCh_append_sep _ h3,
    splitCh_no_sep h4]

theorem map_mk_data : ∀ l : List String, l.map (fun s => String.mk s.data) = l := by
  intro l
  induction l with
  | nil => rfl
  | cons s t ih => rw [List.map_cons, ih]

theorem wire_count' (idS ttlS ordS dataS : String)
    (h1 : ';' ∉ idS.data) (h2 : ';' ∉ ttlS.data) (h3 : ';' ∉ ordS.data)
    (h4 : dataS.data.count ';' = 0) :
    pyCount ';' (idS ++ ";" ++ ttlS ++ ";" ++ ordS ++ ";" ++ dataS) = 3 := by
  unfold pyCount
  exact wire_count idS ttlS ordS dataS h1 h2 h3 h4

theorem wire_pySplit (idS ttlS ordS dataS : String)
    (h1 : ';' ∉ idS.data) (h2 : ';' ∉ ttlS.data) (h3 : ';' ∉ ordS.data)
    (h4 : ';' ∉ dataS.data) :
    pySplit ';' (idS ++ ";" ++ ttlS ++ ";" ++ ordS ++ ";" ++ dataS) =
      [idS, ttlS, ordS, dataS] := by
  unfold pySplit
  rw [wire_split idS ttlS ordS dataS h1 h2 h3 h4, List.map_cons, List.map_cons,
    List.map_cons, List.map_cons]
  rfl

theorem pySplit_joinComma {ds : List String} (hne : ds ≠ []) (h : ∀ d ∈ ds, ',' ∉ d.data) :
    pySplit ',' (joinComma ds) = ds := by
  unfold pySplit
  rw [splitCh_joinComma hne h, List.map_map]
  exact map_mk_data ds

/-! ### C1 and C2: the envelope codec -/

/-- C1 (amended): for an envelope whose data is present — a non-empty
list of strings free of `;` and `,` — and whose id and order are
non-empty, free of `;`, with the order already upper-case (as the
constructor guarantees), decoding the encoded wire string restores the
envelope exactly: id, ttl, order and data are all preserved. (The
absent-data case of the original claim fails: encoding an absent-data
envelope raises, see the counterexample.) -/
theorem C1_roundtrip (m : Message) (ds : List String) (w fresh : String)
    (hdata : m.data = some ds) (hne : ds ≠ [])
    (hid_ne : m.id ≠ "") (hid : ';' ∉ m.id.data)
    (hord : ';' ∉ m.order.data) (hordU : pyUpper m.order = m.order)
    (hds : ∀ d ∈ ds, ';' ∉ d.data ∧ ',' ∉ d.data)
    (henc : encodeMessage m = some w) :
    fromString fresh w = Except.ok m := by
  have hw : w = m.id ++ ";" ++ intStr m.ttl ++ ";" ++ m.order ++ ";" ++ joinComma ds := by
    unfold encodeMessage at henc
    rw [hdata] at henc
    exact (Option.some.inj henc).symm
  subst hw
  have hjc : (joinComma ds).data.count ';' = 0 := joinComma_no_semi (fun d hd => (hds d hd).1)
  have hjc' : ';' ∉ (joinComma ds).data := List.count_eq_zero.mp hjc
  have hcount := wire_count' m.id (intStr m.ttl) m.order (joinComma ds)
    hid (intStr_no_semi m.ttl) hord hjc
  have hsplit := wire_pySplit m.id (intStr m.ttl) m.order (joinComma ds)
    hid (intStr_no_semi m.ttl) hord hjc'
  unfold fromString
  simp only [hcount, hsplit, pyInt_intStr]
  norm_num
  unfold mkMessage
  rw [pySplit_joinComma hne (fun d hd => (hds d hd).2)]
  simp only [if_neg hid_ne, hordU, ← hdata]

/-- Witness for C1: a concrete data-carrying envelope with a negative
ttl round-trips through the wire format. -/
theorem C1_roundtrip_witness :
    fromString "u" "ab;-7;GO;x,y" = Except.ok ⟨"ab", -7, "GO", some ["x", "y"]⟩ :=
  C1_roundtrip ⟨"ab", -7, "GO", some ["x", "y"]⟩ ["x", "y"] "ab;-7;GO;x,y" "u"
    rfl (by decide) (by decide) (by decide) (by decide) (by decide)
    (by decide) (by decide)

/-- Counterexample for C1 as stated: the absent-data envelope
`⟨"ab", 5, "HELLO", none⟩` is valid in the claim's sense (non-empty
order, data absent), but `Message.__str__` iterates `None` and raises
`TypeError`, so `decode(encode(e)) == e` cannot hold for it. -/
theorem C1_counterexample :
    Message.isValid ⟨"ab", 5, "HELLO", none⟩ = true ∧
      encodeMessage ⟨"ab", 5, "HELLO", none⟩ = none :=
  ⟨rfl, rfl⟩

/-- C2 (amended): for every string whose `;` count is not 2 or 3,
decode returns an invalid envelope with `ttl = 0` and empty order whose
id is a freshly drawn uuid4 string (the parsed `uid = 0` is falsy, so
the constructor replaces it) — not `id = 0`; decode never raises on such
strings. For `;` counts 2 and 3 the fields are parsed, but a non-numeric
ttl field makes `int(ttl)` raise `ValueError`, so decode is not total
there (see the counterexample). -/
theorem C2_malformed_decode (s fresh : String)
    (h2 : pyCount ';' s ≠ 2) (h3 : pyCount ';' s ≠ 3) :
    fromString fresh s = Except.ok ⟨fresh, 0, "", none⟩ := by
  unfold fromString
  simp only [if_neg h2, if_neg h3]
  rfl

/-- Witness for C2: a string with no `;` at all decodes to the invalid
envelope carrying the fresh uuid. -/
theorem C2_malformed_decode_witness :
    fromString "u" "zz" = Except.ok ⟨"u", 0, "", none⟩ :=
  C2_malformed_decode "zz" "u" (by decide) (by decide)

/-- Counterexample for C2 as stated: `"a;b;c"` has `;` count 2, yet
decode raises (`int('b')` is a `ValueError`), so decode does not accept
every well-separated string; and the invalid envelope produced for a
separator count outside {2,3} carries the fresh uuid as id, not `id=0`. -/
theorem C2_counterexample :
    fromString "u" "a;b;c" = Except.error () ∧
      fromString "u" "zz" = Except.ok ⟨"u", 0, "", none⟩ ∧ ("u" : String) ≠ "0" :=
  ⟨rfl, rfl, by decide⟩

/-! ### Lemmas: membership table -/

theorem dictInsert_length {α : Type} (k : String) (v : α) (d : List (String × α)) :
    (dictInsert k v d).length = if dictMem k d then d.length else d.length + 1 := by
  unfold dictInsert
  by_cases h : dictMem k d
  · rw [if_pos h, if_pos h, List.length_map]
  · rw [if_neg h, if_neg h, List.length_append, List.length_singleton]

theorem addPeer_frame (now : Int) (h : String) (p : Int) (s : NodeState) :
    (addPeer now h p s).serverHost = s.serverHost ∧
    (addPeer now h p s).serverPort = s.serverPort ∧
    (addPeer now h p s).maxPeers = s.maxPeers ∧
    (addPeer now h p s).recentlyReceived = s.recentlyReceived ∧
    (addPeer now h p s).recentTimeout = s.recentTimeout := by
  unfold addPeer
  split_ifs <;> exact ⟨rfl, rfl, rfl, rfl, rfl⟩

theorem addPeer_len {n : Nat} (now : Int) (h : String) (p : Int) {s : NodeState}
    (hmax : s.maxPeers = MaxPeers.fin n) (hlen : s.peers.length ≤ n) :
    (addPeer now h p s).peers.length ≤ n := by
  unfold addPeer
  split_ifs with h1 h2
  · exact hlen
  · exact hlen
  · have hlt : s.peers.length < n := by
      unfold maxPeersReached at h2
      rw [hmax] at h2
      simpa using h2
    show (dictInsert (peerId h p) _ s.peers).length ≤ n
    rw [dictInsert_length]
    split_ifs <;> omega

theorem addPeer_selfFree (now : Int) (h : String) (p : Int) {s : NodeState}
    (hs : hasSelfEntry s = false) : hasSelfEntry (addPeer now h p s) = false := by
  unfold addPeer
  split_ifs with h1 h2
  · exact hs
  · exact hs
  · unfold hasSelfEntry at hs ⊢
    show (dictInsert (peerId h p) ⟨true, now, h, p⟩ s.peers).any _ = false
    rw [List.any_eq_false] at hs ⊢
    intro kv hkv
    unfold dictInsert at hkv
    by_cases hmem : dictMem (peerId h p) s.peers
    · rw [if_pos hmem, List.mem_map] at hkv
      obtain ⟨kv', hkv', heq⟩ := hkv
      by_cases hk : kv'.1 = peerId h p
      · rw [if_pos hk] at heq
        subst heq
        simpa using h1
      · rw [if_neg hk] at heq
        subst heq
        exact hs kv' hkv'
    · rw [if_neg hmem, List.mem_append] at hkv
      rcases hkv with hkv | hkv
      · exact hs kv hkv
      · rw [List.mem_singleton] at hkv
        subst hkv
        simpa using h1

/-! ### C3, C4 and C10: membership capacity -/

/-- C3: with a finite positive `max_peers`, starting from a table within
capacity and holding no self-entry, any sequence of `add_peer` calls
keeps the table size at most `max_peers` and never makes an entry with
the node's own `(host, port)` identity appear. -/
theorem C3_capacity_invariant (s : NodeState) (n : Nat) (calls : List (Int × String × Int))
    (hmax : s.maxPeers = MaxPeers.fin n) (hn : 0 < n)
    (hlen : s.peers.length ≤ n) (hself : hasSelfEntry s = false) :
    (runAdds calls s).peers.length ≤ n ∧ hasSelfEntry (runAdds calls s) = false := by
  induction calls generalizing s with
  | nil => exact ⟨hlen, hself⟩
  | cons c cs ih =>
    have hstep : runAdds (c :: cs) s = runAdds cs (addPeer c.1 c.2.1 c.2.2 s) := rfl
    rw [hstep]
    exact ih (addPeer c.1 c.2.1 c.2.2 s)
      ((addPeer_frame c.1 c.2.1 c.2.2 s).2.2.1.trans hmax)
      (addPeer_len c.1 c.2.1 c.2.2 hmax hlen)
      (addPeer_selfFree c.1 c.2.1 c.2.2 hself)

/-- Witness for C3: capacity 2, three foreign peers and the node's own
identity offered; the table stays at size ≤ 2 with no self-entry. -/
theorem C3_capacity_invariant_witness :
    (runAdds [(0, "a", 1), (1, "b", 2), (2, "c", 3), (3, "me", 1)]
      ⟨"me", 1, MaxPeers.fin 2, [], [], 300⟩).peers.length ≤ 2 ∧
    hasSelfEntry (runAdds [(0, "a", 1), (1, "b", 2), (2, "c", 3), (3, "me", 1)]
      ⟨"me", 1, MaxPeers.fin 2, [], [], 300⟩) = false :=
  C3_capacity_invariant ⟨"me", 1, MaxPeers.fin 2, [], [], 300⟩ 2
    [(0, "a", 1), (1, "b", 2), (2, "c", 3), (3, "me", 1)]
    rfl (by decide) (by decide) (by decide)

/-- A node constructed with `max_peers = 0`. -/
def zeroCapNode : NodeState := ⟨"me", 1, mkMaxPeers 0, [], [], 300⟩

/-- C4 (code bug): `__init__` maps only *negative* `max_peers` to
`math.inf`, so `max_peers = 0` stays `0`; then `len(peers) >= 0` makes
`max_peers_reached` always true and `add_peer` refuses every peer — the
table is pinned at size 0, not unbounded as the claim (and `__init__`'s
own docstring) state. -/
theorem C4_zero_capacity_refuses :
    mkMaxPeers 0 = MaxPeers.fin 0 ∧
    maxPeersReached zeroCapNode = true ∧
    (∀ now h p, addPeer now h p zeroCapNode = zeroCapNode) := by
  refine ⟨rfl, rfl, ?_⟩
  intro now h p
  unfold addPeer
  split_ifs with h1 h2
  · rfl
  · rfl
  · exact absurd (rfl : maxPeersReached zeroCapNode = true) h2

/-- C10 (amended): the two `max_peers_reached` implementations are not
equivalent — the top-level `peer.py` variant returns the pointwise
*negation* of the canonical `src/peer.py` variant on every state, so its
`add_peer` admits a peer exactly when the canonical one would refuse it
for capacity (it also lacks the self-identity check). -/
theorem C10_reached_negation : ∀ s : NodeState, maxPeersReachedV1 s = !maxPeersReached s := by
  intro s
  unfold maxPeersReached maxPeersReachedV1
  cases s.maxPeers with
  | inf => rfl
  | fin n =>
    by_cases h : s.peers.length < n
    · simp [h, Nat.not_le.mpr h]
    · simp [h, Nat.le_of_not_lt h]

/-- A state distinguishing the two variants. -/
def cexV1Node : NodeState := ⟨"me", 1, MaxPeers.fin 1, [], [], 300⟩

/-- Counterexample for C10 as stated: with `max_peers = 1` and an empty
table, the two `max_peers_reached` answers differ, and `add_peer` admits
the peer in the canonical variant but refuses it in the top-level one. -/
theorem C10_counterexample :
    maxPeersReachedV1 cexV1Node ≠ maxPeersReached cexV1Node ∧
    (addPeer 0 "h" 2 cexV1Node).peers.length = 1 ∧
    (addPeerV1 0 "h" 2 cexV1Node).peers.length = 0 := by
  refine ⟨by decide, rfl, rfl⟩

/-! ### Lemmas: the registered handlers never touch the recently-seen cache -/

theorem dictMem_insert_self {α : Type} (k : String) (v : α) (d : List (String × α)) :
    dictMem k (dictInsert k v d) = true := by
  unfold dictInsert dictMem
  by_cases h : d.any (fun kv => kv.1 = k)
  · rw [if_pos h]
    rw [List.any_eq_true] at h ⊢
    obtain ⟨kv, hkv, hk⟩ := h
    refine ⟨(k, v), List.mem_map.mpr ⟨kv, hkv, ?_⟩, by simp⟩
    simp only [decide_eq_true_eq] at hk
    rw [if_pos hk]
  · rw [if_neg h]
    rw [List.any_eq_true]
    exact ⟨(k, v), List.mem_append_right _ (List.mem_singleton_self _), by simp⟩

theorem removePeer_rr {h : String} {p : Int} {s s' : NodeState}
    (hrm : removePeer h p s = some s') : s'.recentlyReceived = s.recentlyReceived := by
  unfold removePeer at hrm
  by_cases hmem : dictMem (peerId h p) s.peers
  · rw [if_pos hmem] at hrm
    cases Option.some.inj hrm
    rfl
  · rw [if_neg hmem] at hrm
    exact absurd hrm (by simp)

theorem peersLoop_rr (now : Int) : ∀ (ds : List String) (s : NodeState),
    (peersLoop now ds s).state.recentlyReceived = s.recentlyReceived := by
  intro ds
  induction ds with
  | nil => intro s; rfl
  | cons pid rest ih =>
    intro s
    show (peersLoop now (pid :: rest) s).state.recentlyReceived = _
    rcases hsp : splitCh ':' pid.data with _ | ⟨a, _ | ⟨b, _ | ⟨c, t⟩⟩⟩ <;>
      simp only [peersLoop, hsp]
    · rfl
    · rfl
    · rcases hpi : pyInt (String.mk b) with _ | v
      · simp only [hpi]; rfl
      · simp only [hpi]
        rw [ih (addPeer now (String.mk a) v s)]
        exact (addPeer_frame now (String.mk a) v s).2.2.2.1
    · rfl

theorem pingHandler_rr (now : Int) (f : String) (msg : Message) (s : NodeState) :
    (pingHandler now f msg s).state.recentlyReceived = s.recentlyReceived := by
  unfold pingHandler
  rcases hd : msg.data with _ | ds
  · rfl
  · rcases ds with _ | ⟨d0, _ | ⟨d1, rest⟩⟩
    · rfl
    · rfl
    · rcases hpi : pyInt d1 with _ | v <;> simp only [hpi] <;> rfl

theorem aliveHandler_rr (now : Int) (f : String) (msg : Message) (s : NodeState) :
    (aliveHandler now f msg s).state.recentlyReceived = s.recentlyReceived := by
  unfold aliveHandler
  rcases hd : msg.data with _ | ds
  · rfl
  · rcases ds with _ | ⟨d0, _ | ⟨d1, rest⟩⟩
    · rfl
    · rfl
    · by_cases hmem : dictMem (d0 ++ ":" ++ d1) s.peers <;> simp only [hmem] <;> rfl

theorem helloHandler_rr (now : Int) (f : String) (msg : Message) (s : NodeState) :
    (helloHandler now f msg s).state.recentlyReceived = s.recentlyReceived := by
  unfold helloHandler
  rcases hd : msg.data with _ | ds
  · rfl
  · rcases ds with _ | ⟨d0, _ | ⟨d1, rest⟩⟩
    · rfl
    · rfl
    · rcases hpi : pyInt d1 with _ | v
      · simp only [hpi]; rfl
      · simp only [hpi]
        by_cases hful : maxPeersReached s
        · simp only [hful, if_true]
          rcases hsort : getSortedPeers s with _ | ⟨first, others⟩
          · rfl
          · rcases hrm : removePeer first.host first.port s with _ | s1
            · simp only [hrm]; rfl
            · simp only [hrm]
              show (addPeer now d0 v s1).recentlyReceived = _
              rw [(addPeer_frame now d0 v s1).2.2.2.1, removePeer_rr hrm]
        · simp only [hful, if_false]
          show (addPeer now d0 v s).recentlyReceived = _
          exact (addPeer_frame now d0 v s).2.2.2.1

theorem peersHandler_rr (now : Int) (f : String) (msg : Message) (s : NodeState) :
    (peersHandler now f msg s).state.recentlyReceived = s.recentlyReceived := by
  unfold peersHandler
  rcases hd : msg.data with _ | ds
  · rfl
  · exact peersLoop_rr now ds s

theorem nodeHandlers_rr {order : String} {hfn : HandlerFn}
    (hh : nodeHandlers order = some hfn) (now : Int) (f : String) (msg : Message) (s : NodeState) :
    (hfn now f msg s).state.recentlyReceived = s.recentlyReceived := by
  unfold nodeHandlers at hh
  split_ifs at hh <;> cases Option.some.inj hh
  · exact pingHandler_rr now f msg s
  · exact aliveHandler_rr now f msg s
  · exact helloHandler_rr now f msg s
  · exact peersHandler_rr now f msg s

/-! ### Lemmas: dispatch -/

theorem handlePeer_discard {handlers : String → Option HandlerFn} {now : Int}
    {f f2 raw : String} {s : NodeState} {m : Message}
    (hdec : fromString f raw = Except.ok m)
    (hmem : dictMem m.id s.recentlyReceived = true) :
    handlePeer handlers now f f2 raw s = (s, emptyTrace) := by
  unfold handlePeer
  rw [hdec]
  simp [hmem]

theorem dispatchResult_fst (msg : Message) (hr : HResult) :
    (dispatchResult msg hr).1 = hr.state := by
  cases hr with
  | ok s2 sends =>
    simp only [dispatchResult]
    split_ifs <;> rfl
  | raised s2 sends => rfl

theorem dispatchResult_bounds (msg : Message) (hr : HResult) :
    (dispatchResult msg hr).2.handlerRuns.length ≤ 1 ∧
    (dispatchResult msg hr).2.broadcasts.length ≤ 1 := by
  cases hr with
  | ok s2 sends =>
    simp only [dispatchResult]
    split_ifs <;> exact ⟨Nat.le_refl 1, by simp⟩
  | raised s2 sends => exact ⟨Nat.le_refl 1, Nat.zero_le 1⟩

theorem handlePeer_mem (now : Int) (f f2 raw : String) (s : NodeState) (m : Message)
    (hdec : fromString f raw = Except.ok m) :
    dictMem m.id (handlePeer nodeHandlers now f f2 raw s).1.recentlyReceived = true := by
  unfold handlePeer
  rw [hdec]
  by_cases hmem : dictMem m.id s.recentlyReceived
  · simp [hmem]
  · simp only [hmem, Bool.false_eq_true, if_false, ite_false]
    by_cases hv : m.isValid
    · rw [if_neg (not_not_intro hv)]
      rcases hh : nodeHandlers m.order with _ | hfn
      · exact dictMem_insert_self m.id now s.recentlyReceived
      · simp only [hh]
        rw [dispatchResult_fst]
        have hrr := nodeHandlers_rr hh now f2 m
          { s with recentlyReceived := dictInsert m.id now s.recentlyReceived }
        have hrr' : (hfn now f2 m
            { s with recentlyReceived := dictInsert m.id now s.recentlyReceived }).state.recentlyReceived
            = dictInsert m.id now s.recentlyReceived := hrr
        rw [hrr']
        exact dictMem_insert_self m.id now s.recentlyReceived
    · rw [if_pos hv]
      exact dictMem_insert_self m.id now s.recentlyReceived

theorem handlePeer_trace_bounds (handlers : String → Option HandlerFn) (now : Int)
    (f f2 raw : String) (s : NodeState) :
    (handlePeer handlers now f f2 raw s).2.handlerRuns.length ≤ 1 ∧
    (handlePeer handlers now f f2 raw s).2.broadcasts.length ≤ 1 := by
  unfold handlePeer
  rcases hfs : fromString f raw with e | msg
  · exact ⟨Nat.zero_le 1, Nat.zero_le 1⟩
  · by_cases hmem : dictMem msg.id s.recentlyReceived
    · simp [hmem, emptyTrace]
    · simp only [hmem, Bool.false_eq_true, if_false, ite_false]
      by_cases hv : msg.isValid
      · rw [if_neg (not_not_intro hv)]
        rcases hh : handlers msg.order with _ | hfn
        · exact ⟨by simp [emptyTrace], by simp [emptyTrace]⟩
        · simp only [hh]
          exact dispatchResult_bounds msg _
      · rw [if_pos hv]
        exact ⟨by simp [emptyTrace], by simp [emptyTrace]⟩

theorem runDeliveries_noop {raw : String} {m : Message}
    (hdec : ∀ f, fromString f raw = Except.ok m) :
    ∀ (params : List (Int × String × String)) (s : NodeState),
      dictMem m.id s.recentlyReceived = true →
      runDeliveries nodeHandlers raw params s = (s, params.map (fun _ => emptyTrace)) := by
  intro params
  induction params with
  | nil => intro s _; rfl
  | cons p rest ih =>
    intro s hmem
    show runDeliveries nodeHandlers raw (p :: rest) s = _
    unfold runDeliveries
    rw [handlePeer_discard (hdec p.2.1) hmem, ih s hmem]
    rfl

/-! ### C5, C6 and C8: the dispatch engine -/

/-- C5: delivering the same encoded envelope (its id is stable across
decodes, as holds for every string produced by the encoder) N ≥ 1 times
yields at most one handler invocation and at most one re-flood in total:
the first delivery produces a trace with at most one handler run and at
most one broadcast, and every later delivery is discarded at the
recently-seen-cache check, changing nothing — membership table included
— and producing an empty trace. -/
theorem C5_dedup_idempotence (raw : String) (m : Message)
    (hdec : ∀ f, fromString f raw = Except.ok m)
    (p : Int × String × String) (rest : List (Int × String × String)) (s0 : NodeState) :
    runDeliveries nodeHandlers raw (p :: rest) s0 =
      ((handlePeer nodeHandlers p.1 p.2.1 p.2.2 raw s0).1,
        (handlePeer nodeHandlers p.1 p.2.1 p.2.2 raw s0).2 :: rest.map (fun _ => emptyTrace)) ∧
    (handlePeer nodeHandlers p.1 p.2.1 p.2.2 raw s0).2.handlerRuns.length ≤ 1 ∧
    (handlePeer nodeHandlers p.1 p.2.1 p.2.2 raw s0).2.broadcasts.length ≤ 1 := by
  refine ⟨?_, (handlePeer_trace_bounds nodeHandlers p.1 p.2.1 p.2.2 raw s0).1,
    (handlePeer_trace_bounds nodeHandlers p.1 p.2.1 p.2.2 raw s0).2⟩
  show runDeliveries nodeHandlers raw (p :: rest) s0 = _
  unfold runDeliveries
  rw [runDeliveries_noop hdec rest (handlePeer nodeHandlers p.1 p.2.1 p.2.2 raw s0).1
    (handlePeer_mem p.1 p.2.1 p.2.2 raw s0 m (hdec p.2.1))]

/-- Witness for C5: three deliveries of the same PING envelope to a
fresh node: the second and third change nothing and have empty traces. -/
theorem C5_dedup_idempotence_witness :
    runDeliveries nodeHandlers "abc;2;PING;h,1" [(9, "f", "g"), (11, "f2", "g2"), (12, "f3", "g3")]
      ⟨"me", 1, MaxPeers.fin 2, [], [], 300⟩ =
      ((handlePeer nodeHandlers 9 "f" "g" "abc;2;PING;h,1" ⟨"me", 1, MaxPeers.fin 2, [], [], 300⟩).1,
        (handlePeer nodeHandlers 9 "f" "g" "abc;2;PING;h,1" ⟨"me", 1, MaxPeers.fin 2, [], [], 300⟩).2
          :: [emptyTrace, emptyTrace]) ∧
    (handlePeer nodeHandlers 9 "f" "g" "abc;2;PING;h,1"
      ⟨"me", 1, MaxPeers.fin 2, [], [], 300⟩).2.handlerRuns.length ≤ 1 ∧
    (handlePeer nodeHandlers 9 "f" "g" "abc;2;PING;h,1"
      ⟨"me", 1, MaxPeers.fin 2, [], [], 300⟩).2.broadcasts.length ≤ 1 :=
  C5_dedup_idempotence "abc;2;PING;h,1" ⟨"abc", 2, "PING", some ["h", "1"]⟩
    (fun f => rfl) (9, "f", "g") [(11, "f2", "g2"), (12, "f3", "g3")]
    ⟨"me", 1, MaxPeers.fin 2, [], [], 300⟩

theorem broadcastSends_wf : ∀ keys : List String,
    (∀ k ∈ keys, (keyTarget k).isSome = true) →
    (broadcastSends keys).2 = false ∧ (broadcastSends keys).1.length = keys.length := by
  intro keys
  induction keys with
  | nil => intro _; exact ⟨rfl, rfl⟩
  | cons k rest ih =>
    intro hwf
    rcases hkt : keyTarget k with _ | t
    · have hk := hwf k (List.mem_cons_self k rest)
      rw [hkt] at hk
      exact absurd hk (by simp)
    · obtain ⟨h2, h1⟩ := ih (fun x hx => hwf x (List.mem_cons_of_mem k hx))
      show ((broadcastSends (k :: rest)).2 = false ∧ _)
      unfold broadcastSends
      rw [hkt]
      exact ⟨h2, by simpa using h1⟩

/-- C6 (amended): when a message decodes to a new valid envelope whose
order has a registered handler and the handler returns normally, the
dispatched message's ttl is decremented by exactly 1 after the handler
runs, and a re-flood of the envelope (same id, decremented ttl) is
attempted exactly when the post-decrement ttl is strictly positive —
for any handler table, hence regardless of the order type; a message
arriving with ttl ≤ 1 is still handled but never re-flooded. The flood
walks the current (post-handler) table keys in order and aborts at the
first key whose port segment does not parse (`int(peer_id[1])` raising
`ValueError` escapes `broadcast_message` and is caught at the dispatch
boundary, so later entries are never sent to); only when every table
key is well-formed does the envelope reach every current entry, one
send per entry with no abort. -/
theorem C6_ttl_policy (handlers : String → Option HandlerFn) (now : Int) (f f2 raw : String)
    (m : Message) (s s2 : NodeState) (hfn : HandlerFn) (sends : List (Message × String × Int))
    (hdec : fromString f raw = Except.ok m)
    (hnew : dictMem m.id s.recentlyReceived = false)
    (hval : m.isValid = true)
    (hreg : handlers m.order = some hfn)
    (hrun : hfn now f2 m { s with recentlyReceived := dictInsert m.id now s.recentlyReceived }
      = HResult.ok s2 sends) :
    handlePeer handlers now f f2 raw s =
      (s2, ⟨[m], sends,
        if 0 < m.ttl - 1 then
          [({ m with ttl := m.ttl - 1 }, broadcastSends (s2.peers.map (fun kv => kv.1)))]
        else []⟩) ∧
    ((∀ k ∈ s2.peers.map (fun kv => kv.1), (keyTarget k).isSome = true) →
      (broadcastSends (s2.peers.map (fun kv => kv.1))).2 = false ∧
      (broadcastSends (s2.peers.map (fun kv => kv.1))).1.length = s2.peers.length) := by
  constructor
  · unfold handlePeer
    rw [hdec]
    simp only [hnew, Bool.false_eq_true, if_false, ite_false]
    rw [if_neg (not_not_intro hval)]
    simp only [hreg, hrun, dispatchResult]
    split_ifs with h1 <;> rfl
  · intro hwf
    obtain ⟨h2, h1⟩ := broadcastSends_wf (s2.peers.map (fun kv => kv.1)) hwf
    exact ⟨h2, by simpa using h1⟩

/-- Witness for C6: a PING envelope with ttl 2 arriving at a node with
one well-formed peer `a:1`: the handler replies ALIVE, the ttl drops to
1, and the message is re-flooded to `a:1` with no abort. -/
theorem C6_ttl_policy_witness :
    handlePeer nodeHandlers 9 "f" "g" "abc;2;PING;h,1"
      ⟨"me", 1, MaxPeers.fin 2, [("a:1", ⟨true, 0, "a", 1⟩)], [], 300⟩ =
      (⟨"me", 1, MaxPeers.fin 2, [("a:1", ⟨true, 0, "a", 1⟩)], [("abc", 9)], 300⟩,
        ⟨[⟨"abc", 2, "PING", some ["h", "1"]⟩],
          [(⟨"g", 1, "ALIVE", some ["me", "1"]⟩, "h", 1)],
          [(⟨"abc", 1, "PING", some ["h", "1"]⟩, ([("a", 1)], false))]⟩) ∧
    ((∀ k ∈ [("a:1" : String)], (keyTarget k).isSome = true) →
      (broadcastSends ["a:1"]).2 = false ∧ (broadcastSends ["a:1"]).1.length = 1) :=
  C6_ttl_policy nodeHandlers 9 "f" "g" "abc;2;PING;h,1"
    ⟨"abc", 2, "PING", some ["h", "1"]⟩
    ⟨"me", 1, MaxPeers.fin 2, [("a:1", ⟨true, 0, "a", 1⟩)], [], 300⟩
    ⟨"me", 1, MaxPeers.fin 2, [("a:1", ⟨true, 0, "a", 1⟩)], [("abc", 9)], 300⟩
    pingHandler [(⟨"g", 1, "ALIVE", some ["me", "1"]⟩, "h", 1)]
    rfl rfl rfl rfl rfl

/-- A table holding a key with a non-numeric port segment, as
`add_peer` creates when a HELLO carries a host containing `:` (here
`add_peer("x:y", 5)` produced the key `x:y:5`, whose `peer_id[1]` after
`split(':')` is `"y"`). -/
def malKeyNode : NodeState :=
  ⟨"me", 1, MaxPeers.fin 5,
    [("a:1", ⟨true, 0, "a", 1⟩), ("x:y:5", ⟨true, 1, "x:y", 5⟩), ("b:2", ⟨true, 2, "b", 2⟩)],
    [], 300⟩

/-- Counterexample for C6 as stated: a PING with post-decrement ttl
1 > 0 dispatched at `malKeyNode` is re-flooded only to `a:1` — the
`int("y")` `ValueError` aborts `broadcast_message` at the second key,
so the current entry `b:2` never receives it, refuting "re-flooded to
every current membership table entry". -/
theorem C6_counterexample :
    (handlePeer nodeHandlers 9 "f" "g" "abc;2;PING;h,1" malKeyNode).2.broadcasts =
      [(⟨"abc", 1, "PING", some ["h", "1"]⟩, ([("a", 1)], true))] ∧
    ("b:2", (⟨true, 2, "b", 2⟩ : PeerInfo)) ∈
      (handlePeer nodeHandlers 9 "f" "g" "abc;2;PING;h,1" malKeyNode).1.peers ∧
    (("b" : String), (2 : Int)) ∉ [(("a" : String), (1 : Int))] := by
  refine ⟨by decide, by decide, by decide⟩

/-- C8 (amended): a datagram that decodes to an invalid envelope (empty
order) is discarded before dispatch — no handler runs, nothing is sent
or re-flooded, and the membership table is untouched — but the decoded
id *is* inserted into the recently-seen cache first (when not already
present), so the node state is not exactly as before. -/
theorem C8_invalid_discard (handlers : String → Option HandlerFn) (now : Int)
    (f f2 raw : String) (m : Message) (s : NodeState)
    (hdec : fromString f raw = Except.ok m) (hinv : m.isValid = false) :
    handlePeer handlers now f f2 raw s =
      (if dictMem m.id s.recentlyReceived then s
       else { s with recentlyReceived := dictInsert m.id now s.recentlyReceived },
       emptyTrace) := by
  unfold handlePeer
  rw [hdec]
  by_cases hmem : dictMem m.id s.recentlyReceived
  · simp [hmem]
  · simp [hmem, hinv]

/-- Witness for C8: a well-separated datagram with an empty order field
arriving at a fresh node: the trace is empty and only the cache gained
the id. -/
theorem C8_invalid_discard_witness :
    handlePeer nodeHandlers 7 "f" "g" "abc;5;;d" ⟨"me", 1, MaxPeers.fin 2, [], [], 300⟩ =
      (⟨"me", 1, MaxPeers.fin 2, [], [("abc", 7)], 300⟩, emptyTrace) := by
  exact C8_invalid_discard nodeHandlers 7 "f" "g" "abc;5;;d"
    ⟨"abc", 5, "", some ["d"]⟩ ⟨"me", 1, MaxPeers.fin 2, [], [], 300⟩ rfl rfl

/-- Counterexample for C8 as stated: after the invalid datagram
`"abc;5;;d"` the node state is *not* exactly as before — the
recently-seen cache changed. -/
theorem C8_counterexample :
    (handlePeer nodeHandlers 7 "f" "g" "abc;5;;d"
      ⟨"me", 1, MaxPeers.fin 2, [], [], 300⟩).1 ≠
      ⟨"me", 1, MaxPeers.fin 2, [], [], 300⟩ := by
  decide

/-! ### C7: HELLO with a full table -/

/-- C7: a node at capacity (`max_peers = 2`, entries X older and Y
newer by `time_added`) handling HELLO from Z (distinct from the node's
own identity and from Y): the single oldest entry X is evicted, Z is
added, and a PEERS message is sent directly (a `send_message`, not a
flood) to Z whose data is the table's key list taken after the add —
hence containing Z's own identity string; the table becomes {Y, Z}. -/
theorem C7_hello_eviction (sh : String) (sp : Int) (hx hy hz : String) (px py pz : Int)
    (ax ay : Bool) (tx ty now : Int) (rr : List (String × Int)) (mid fresh : String) (mttl : Int)
    (hyx : peerId hy py ≠ peerId hx px)
    (hyz : peerId hy py ≠ peerId hz pz)
    (hself : ¬ (hz = sh ∧ pz = sp))
    (ht : tx ≤ ty) :
    helloHandler now fresh ⟨mid, mttl, "HELLO", some [hz, intStr pz]⟩
      ⟨sh, sp, MaxPeers.fin 2,
        [(peerId hx px, ⟨ax, tx, hx, px⟩), (peerId hy py, ⟨ay, ty, hy, py⟩)], rr, 300⟩ =
      HResult.ok
        ⟨sh, sp, MaxPeers.fin 2,
          [(peerId hy py, ⟨ay, ty, hy, py⟩), (peerId hz pz, ⟨true, now, hz, pz⟩)], rr, 300⟩
        [(⟨fresh, 1, "PEERS", some [peerId hy py, peerId hz pz]⟩, hz, pz)] ∧
    peerId hz pz ∈ [peerId hy py, peerId hz pz] := by
  refine ⟨?_, List.mem_cons_of_mem _ (List.mem_singleton_self _)⟩
  have hup : pyUpper "PEERS" = "PEERS" := by decide
  simp only [helloHandler, pyInt_intStr]
  simp [getSortedPeers, sortByTime, insertByTime, ht, maxPeersReached, removePeer, dictMem,
    dictErase, addPeer, dictInsert, mkMessage, hup, hself, hyx, hyz]

/-- Witness for C7: the concrete scenario of the claim — peers
`a:1` (added at time 0) and `b:2` (time 5), HELLO from `c:3`. -/
theorem C7_hello_eviction_witness :
    helloHandler 9 "g" ⟨"m", 1, "HELLO", some ["c", intStr 3]⟩
      ⟨"me", 1, MaxPeers.fin 2,
        [(peerId "a" 1, ⟨true, 0, "a", 1⟩), (peerId "b" 2, ⟨true, 5, "b", 2⟩)], [], 300⟩ =
      HResult.ok
        ⟨"me", 1, MaxPeers.fin 2,
          [(peerId "b" 2, ⟨true, 5, "b", 2⟩), (peerId "c" 3, ⟨true, 9, "c", 3⟩)], [], 300⟩
        [(⟨"g", 1, "PEERS", some [peerId "b" 2, peerId "c" 3]⟩, "c", 3)] ∧
    peerId "c" 3 ∈ [peerId "b" 2, peerId "c" 3] :=
  C7_hello_eviction "me" 1 "a" "b" "c" 1 2 3 true true 0 5 9 [] "m" "g" 1
    (by decide) (by decide) (by decide) (by decide)

/-! ### C9: cache pruning -/

/-- A node whose recently-seen cache holds an id first observed at
time 0 and one first observed at time 86300. -/
def staleCacheNode : NodeState :=
  ⟨"me", 1, MaxPeers.fin 2, [], [("m1", 0), ("m2", 86300)], 300⟩

/-- C9 (code bug): `__is_recent` compares `(now - t).seconds` — the
*seconds component* of the timedelta, i.e. the age modulo 86400 — with
the 300 s window, instead of the total age. A sweep at `now = 86410`
must remove the entry first seen at time 0 (age 86410 s, one day plus
10 s, far beyond the window), but the code computes `86410 mod 86400 =
10 <= 300` and keeps it, so the sweep changes nothing; for ages within
a single day (third conjunct, ages 400 and 200 at the window 300) the
pruning behaves as the claim states. -/
theorem C9_day_old_entry_kept :
    ((86410 : Int) - 0 > 300) ∧
    clearOldMessages 86410 staleCacheNode = staleCacheNode ∧
    clearOldMessages 400 { staleCacheNode with recentlyReceived := [("m1", 0), ("m2", 200)] } =
      { staleCacheNode with recentlyReceived := [("m2", 200)] } :=
  ⟨by decide, by decide, by decide⟩

end P2P
